import Mathlib

/-!
Shallow embedding of the information-retrieval core of the repository
(`index_class.py`, `methods.py`, `query_expansion.py`, `util.py`).

Modelling conventions, fixed once for the whole file:

* Python dicts are association lists `List (String × β)` in insertion order;
  `d[k] = v` is `dictInsert` (replace in place when the key exists, append
  otherwise), and `d[k]` reads are `List.lookup`.
* Python `sorted` (Timsort) is a stable sort; it is embedded as the stable
  `List.insertionSort`, which produces the same list for every total preorder.
* Python `set` iteration order is hash-dependent and unspecified; wherever a
  set is materialised into a list (`set(words)` during the build,
  `list(set(...))` in `get_all_words_in_docs`) the embedding fixes one
  deterministic enumeration (`List.dedup`, or sorted order); none of the
  properties proved below depend on the enumeration order chosen.
* Fallible code returns `Except PyError`; the error constructors name the
  Python exception the source raises on that path.
* `float` arithmetic is embedded exactly: integer statistics stay in `Nat`,
  ratios are `ℚ`, and `math.log10`/`math.log2` become `Real.logb`; the
  quantities appearing in the concrete instances below are small enough for
  `float` to be exact up to the final logarithm/division, so the orderings and
  equalities proved are those of the source.
* The text normaliser (`util.parse_text`, built on NLTK) is external to the
  core; the embedding takes it as an opaque parameter
  `parse : String → Bool → Bool → List String` (text, filter_stopwords,
  stem_words), and the NLTK stopword list is likewise an opaque parameter.
-/

/-- A Python runtime value, to the extent the embedded code inspects types:
strings, integers, and the type object `int` itself (which the source
compares against stored id values in `Index.get_doc_name`). -/
inductive PyVal where
  | str (s : String)
  | int (n : Int)
  | typeInt
  deriving DecidableEq

/-- Python exceptions raised by the embedded code paths. -/
inductive PyError where
  | keyError
  | typeError
  | indexError
  | zeroDivisionError
  | valueError
  | attributeError
  deriving DecidableEq

/-- Python `==` between the runtime values above.  The type object `int` is
never equal to an integer value — the comparison `Index.get_doc_name`
performs. -/
def pyEq : PyVal → PyVal → Bool
  | .str a, .str b => a == b
  | .int a, .int b => a == b
  | .typeInt, .typeInt => true
  | _, _ => false

/-- One entry of a posting list: the dict with keys `doc` and `freq` used
throughout `index_class.py`.  `freq` is an `Int` because
`add_docs_to_word` accepts any Python `int` there. -/
structure Posting where
  doc : String
  freq : Int
  deriving DecidableEq

/-- The state of an `Index` instance whose constructor ran to completion:
`words_in_doc` (doc name to its token list, with repetitions), `doc_id`
(doc name to numerical id), `all_words` (the sorted vocabulary),
`posting_list` (word to its posting list), and the two normalisation
flags. -/
structure Index where
  words_in_doc : List (String × List String)
  doc_id : List (String × Nat)
  all_words : List String
  posting_list : List (String × List Posting)
  filter_stopwords : Bool
  stem_words : Bool
  deriving DecidableEq

/-- The observable outcome of `Index.__init__`.  The source `return None`
inside `__init__` does not raise and does not abort object construction: it
stops the loop early, leaving the already-processed documents recorded and
the attributes assigned after the loop (`all_words` and the two flags)
never set.  `halted` carries exactly the fields that were populated at
that point. -/
inductive BuildResult where
  | complete (idx : Index)
  | halted (words_in_doc : List (String × List String)) (doc_id : List (String × Nat))
      (posting_list : List (String × List Posting))
  deriving DecidableEq

/-- A kernel-computable decision procedure for the string order (Python
compares strings lexicographically by code point, which is exactly the
order on the underlying character lists). -/
def decLEStr (a b : String) : Decidable (a ≤ b) :=
  decidable_of_iff (a.toList ≤ b.toList) String.le_iff_toList_le.symm

instance {β : Type} : DecidableRel (fun (a b : String × β) => a.1 ≤ b.1) := fun a b =>
  decLEStr a.1 b.1

instance strRel : DecidableRel (fun (a b : String) => a ≤ b) := fun a b => decLEStr a b

instance {β : Type} : IsTotal (String × β) (fun a b => a.1 ≤ b.1) :=
  ⟨fun a b => le_total a.1 b.1⟩

instance {β : Type} : IsTrans (String × β) (fun a b => a.1 ≤ b.1) :=
  ⟨fun _ _ _ => le_trans⟩

instance : DecidableRel (fun (a b : Posting) => a.doc ≤ b.doc) := fun a b =>
  decLEStr a.doc b.doc

instance : IsTotal Posting (fun a b => a.doc ≤ b.doc) := ⟨fun a b => le_total a.doc b.doc⟩

instance : IsTrans Posting (fun a b => a.doc ≤ b.doc) := ⟨fun _ _ _ => le_trans⟩

instance : IsTotal String (fun a b => a ≤ b) := ⟨le_total⟩

instance : IsTrans String (fun a b => a ≤ b) := ⟨fun _ _ _ => le_trans⟩

instance : IsAntisymm String (fun a b => a ≤ b) := ⟨fun _ _ => le_antisymm⟩

instance : IsTotal Nat (fun a b => a ≤ b) := ⟨le_total⟩

instance : IsTrans Nat (fun a b => a ≤ b) := ⟨fun _ _ _ => le_trans⟩

instance : IsAntisymm Nat (fun a b => a ≤ b) := ⟨fun _ _ => le_antisymm⟩

/-- Python `sorted(l, key=key)` for a rational-valued key: the stable
ascending sort by that key. -/
def sortByQ {α : Type} (key : α → ℚ) (l : List α) : List α :=
  @List.insertionSort α (fun a b => key a ≤ key b)
    (fun a b => inferInstanceAs (Decidable (key a ≤ key b))) l

/-- util.get_intersection: the elements of `list1` (repeats kept) that occur
in `list2`. -/
def get_intersection (l1 l2 : List String) : List String :=
  l1.filter (fun e => l2.contains e)

/-- util.extract_lists: concatenates a list of lists (a left fold of `+`
starting from `[]`) and sorts the result. -/
def extract_lists (l : List (List String)) : List String :=
  (l.foldl (fun acc cur => acc ++ cur) []).insertionSort (· ≤ ·)

/-- Python dict assignment `d[k] = v` on an association list: replace the
value in place if the key exists, append the pair otherwise. -/
def dictInsert {β : Type} (l : List (String × β)) (k : String) (v : β) : List (String × β) :=
  if l.any (fun e => e.1 == k) then l.map (fun e => if e.1 == k then (k, v) else e)
  else l ++ [(k, v)]

/-- Python `set.add`: membership-preserving insertion (the enumeration order
of the set is irrelevant to everything proved below, see the header). -/
def setAdd (l : List String) (w : String) : List String :=
  if l.contains w then l else l ++ [w]

/-- Lines 72–75 of index_class.py: ensure `word` has a (possibly empty)
posting list, then append the entry `p` to it. -/
def appendPosting (pl : List (String × List Posting)) (w : String) (p : Posting) :
    List (String × List Posting) :=
  if pl.any (fun e => e.1 == w) then pl.map (fun e => if e.1 == w then (e.1, e.2 ++ [p]) else e)
  else pl ++ [(w, [p])]

/-- The mutable attributes populated by the `Index.__init__` loop. -/
structure BuildState where
  words_in_doc : List (String × List String)
  doc_id : List (String × Nat)
  all_words : List String
  posting_list : List (String × List Posting)

/-- One iteration of the `Index.__init__` loop for document `doc` with parsed
token list `ws` and enumeration index `i`: record the token list, record the
id, and for each distinct token update the vocabulary set and the posting
list with the token's exact frequency `ws.count w`.  The source interleaves
the two per-word updates in one pass over `set(words)`; they touch disjoint
state, so they are embedded as two folds over the same distinct-token
list. -/
def processDoc (s : BuildState) (doc : String) (ws : List String) (i : Nat) : BuildState where
  words_in_doc := dictInsert s.words_in_doc doc ws
  doc_id := dictInsert s.doc_id doc i
  all_words := ws.dedup.foldl setAdd s.all_words
  posting_list := ws.dedup.foldl
    (fun pl w => appendPosting pl w ⟨doc, (ws.count w : Int)⟩) s.posting_list

/-- The `Index.__init__` document loop.  A non-string content value triggers
the source's `return None`: construction stops, the state built so far is
what the object keeps, and `all_words` / the flags are never assigned. -/
def buildLoop (parse : String → Bool → Bool → List String) (fs stw : Bool) :
    List (String × PyVal) → Nat → BuildState → BuildResult
  | [], _, s => .complete ⟨s.words_in_doc, s.doc_id, s.all_words.insertionSort (· ≤ ·),
      s.posting_list, fs, stw⟩
  | (d, v) :: rest, i, s =>
    match v with
    | .str content => buildLoop parse fs stw rest (i + 1) (processDoc s d (parse content fs stw) i)
    | _ => .halted s.words_in_doc s.doc_id s.posting_list

/-- Index.__init__: sort the database items by document name, then run the
loop from the empty state. -/
def buildIndex (parse : String → Bool → Bool → List String) (db : List (String × PyVal))
    (fs stw : Bool) : BuildResult :=
  buildLoop parse fs stw (db.insertionSort (fun a b => a.1 ≤ b.1)) 0 ⟨[], [], [], []⟩

/-- Reading a posting-list dict with a default: `pl[w]` if present, `[]`
otherwise. -/
def getPL (pl : List (String × List Posting)) (w : String) : List Posting :=
  (pl.lookup w).getD []

/-- Index.get_posting_list. -/
def get_posting_list (idx : Index) (w : String) : List Posting :=
  getPL idx.posting_list w

/-- Index.get_doc_list. -/
def get_doc_list (idx : Index) (w : String) : List String :=
  (get_posting_list idx w).map (fun e => e.doc)

/-- Index.get_words_in_doc. -/
def get_words_in_doc (idx : Index) (d : String) : List String :=
  (idx.words_in_doc.lookup d).getD []

/-- Index.get_n_docs. -/
def get_n_docs (idx : Index) : Nat := idx.words_in_doc.length

/-- Index.get_n_docs_containing. -/
def get_n_docs_containing (idx : Index) (w : String) : Nat :=
  (get_posting_list idx w).length

/-- Index.get_n_different_words: `len(set(words_in_doc[doc]))` when the doc
is known, `0` otherwise. -/
def get_n_different_words (idx : Index) (d : String) : Nat :=
  ((idx.words_in_doc.lookup d).getD []).dedup.length

/-- Index.get_total_freq: a left fold summing `freq` over the posting list,
`0` for an unknown word. -/
def get_total_freq (idx : Index) (w : String) : Int :=
  (get_posting_list idx w).foldl (fun acc cur => acc + cur.freq) 0

/-- Index.get_all_docs: `sorted(words_in_doc.items())`. -/
def get_all_docs (idx : Index) : List (String × List String) :=
  idx.words_in_doc.insertionSort (fun a b => a.1 ≤ b.1)

/-- Index.get_all_docs_names: `sorted(words_in_doc.keys())`. -/
def get_all_docs_names (idx : Index) : List String :=
  (idx.words_in_doc.map (fun e => e.1)).insertionSort (· ≤ ·)

/-- Index.get_all_words. -/
def get_all_words (idx : Index) : List String := idx.all_words

/-- Index.get_doc_id: the id when the name is known, `-1` otherwise. -/
def get_doc_id (idx : Index) (name : String) : Int :=
  match idx.doc_id.lookup name with
  | some i => (i : Int)
  | none => -1

/-- Index.get_doc_name.  The guard in the source is
`if int in self.doc_id.values() else ''`: it asks whether the type object
`int` is an element of the stored ids, testing `v == int` for each value
`v`.  The first branch (which would raise IndexError when no id matches) is
therefore unreachable; it is embedded with a `headD ""` default. -/
def get_doc_name (idx : Index) (id : Int) : String :=
  if (idx.doc_id.map (fun e => e.2)).any (fun v => pyEq (.int (v : Int)) .typeInt) then
    ((idx.doc_id.filter (fun e => ((e.2 : Int) == id))).map (fun e => e.1)).headD ""
  else ""

/-- Index.get_all_docs_ids: `sorted(doc_id.values())`. -/
def get_all_docs_ids (idx : Index) : List Nat :=
  (idx.doc_id.map (fun e => e.2)).insertionSort (· ≤ ·)

/-- Index.get_all_words_in_docs:
`list(set(extract_lists([words for doc, words in items if doc in docs])))`.
The set's enumeration order is unspecified in the source; the embedding
enumerates it as the deduplicated sorted list. -/
def get_all_words_in_docs (idx : Index) (docs : List String) : List String :=
  (extract_lists ((idx.words_in_doc.filter (fun e => docs.contains e.1)).map
    (fun e => e.2))).dedup

/-- Index.get_frequency_in_doc: `words_in_doc[doc].count(word)`.  Unlike
every other getter, the doc subscript is unguarded: an unknown doc raises
KeyError. -/
def get_frequency_in_doc (idx : Index) (w d : String) : Except PyError Int :=
  match idx.words_in_doc.lookup d with
  | some ws => .ok (ws.count w : Int)
  | none => .error .keyError

/-- A concrete whitespace tokenizer, standing in for the external
`parse_text` normaliser in the concrete instances below (the normaliser is
an opaque collaborator; any concrete function serves for test corpora). -/
def wsParse (s : String) (_ _ : Bool) : List String :=
  (s.data.foldr (fun c acc =>
    match acc with
    | [] => if c = ' ' then [[]] else [[c]]
    | cur :: rest => if c = ' ' then [] :: acc else (c :: cur) :: rest) []).filterMap
    (fun cs => if cs.isEmpty then none else some (String.mk cs))

/-- Extract the index from a completed build (used only to name concrete
built indices; every build below completes). -/
def resultIndex : BuildResult → Index
  | .complete idx => idx
  | .halted _ _ _ => ⟨[], [], [], [], false, false⟩

/-- Two documents with disjoint one-word contents. -/
def exIdx2 : Index :=
  resultIndex (buildIndex wsParse [("a", .str "x"), ("b", .str "y")] false false)

/-- Three documents with disjoint one-word contents. -/
def exIdx3 : Index :=
  resultIndex (buildIndex wsParse
    [("d1", .str "a"), ("d2", .str "b"), ("d3", .str "c")] false false)

/-- A single one-word document. -/
def exIdx1 : Index :=
  resultIndex (buildIndex wsParse [("d1", .str "x")] false false)

/-- A single document whose token frequencies separate the term
correlations used by query expansion. -/
def exIdxQE : Index :=
  resultIndex (buildIndex wsParse [("d1", .str "cat sat the the")] false false)

/-- The two-document corpus of the specification's concrete scenario. -/
def exIdxSpec : Index :=
  resultIndex (buildIndex wsParse
    [("d1", .str "the cat sat"), ("d2", .str "the dog sat on the mat")] false false)

/-- One element of the list passed to `Index.add_docs_to_word`: a dict with
`doc` and `freq` fields of arbitrary runtime type (the method type-checks
them itself). -/
structure RawEntry where
  doc : PyVal
  freq : PyVal
  deriving DecidableEq

/-- The in-place `doc_freq['freq'] += freq` of index_class.py line 124: the
first posting whose `doc` matches is incremented. -/
def incrFirst : List Posting → String → Int → List Posting
  | [], _, _ => []
  | p :: rest, d, f =>
    if p.doc == d then { p with freq := p.freq + f } :: rest else p :: incrFirst rest d f

/-- Lines 122–125 of index_class.py: merge the valid entry `(d, f)` into the
word's posting list — increment the first matching posting if one exists
(the `else` branch), append a copy of the entry otherwise (the
`except IndexError` branch) — then re-sort by doc name (the `finally`
branch, which runs on both paths). -/
def mergeEntry (l : List Posting) (d : String) (f : Int) : List Posting :=
  (if l.any (fun node => node.doc == d) then incrFirst l d f
   else l ++ [⟨d, f⟩]).insertionSort (fun a b => a.doc ≤ b.doc)

/-- In-place mutation of a dict value at an existing key. -/
def updateVal {β : Type} (l : List (String × β)) (k : String) (g : β → β) :
    List (String × β) :=
  l.map (fun e => if e.1 == k then (e.1, g e.2) else e)

/-- The entry loop of `Index.add_docs_to_word`, acting on the
`words_in_doc` and `posting_list` attributes.  A wrong-typed entry is
skipped (`continue`).  For a doc missing from `words_in_doc` the source
writes `self.posting_list[doc] = [word]*freq` (the comment above that line
says `words_in_doc`) and then calls `self.doc_id[doc].append(...)`, which
raises: KeyError when `doc` has no id, AttributeError (append on an int)
when it does; the state mutated before the exception is unobservable here
because the error aborts the call. -/
def adtwLoop (word : String) (doc_id : List (String × Nat)) :
    List RawEntry → List (String × List String) → List (String × List Posting) →
      Except PyError (List (String × List String) × List (String × List Posting))
  | [], wid, pl => .ok (wid, pl)
  | e :: rest, wid, pl =>
    match e.doc, e.freq with
    | .str d, .int f =>
      if wid.any (fun x => x.1 == d) then
        adtwLoop word doc_id rest
          (updateVal wid d
            (fun ws => (ws ++ List.replicate f.toNat word).insertionSort (· ≤ ·)))
          (updateVal pl word (fun l => mergeEntry l d f))
      else
        match doc_id.lookup d with
        | some _ => .error .attributeError
        | none => .error .keyError
    | _, _ => adtwLoop word doc_id rest wid pl

/-- Index.add_docs_to_word.  `stopWords` stands for the external NLTK
`STOP_WORDS` constant.  `list(self.doc_id.values())[-1]` is evaluated
before the loop and raises IndexError on an empty index. -/
def add_docs_to_word (stopWords : List String) (idx : Index) (word : String)
    (entries : List RawEntry) : Except PyError Index :=
  if stopWords.contains word && idx.filter_stopwords then .ok idx
  else
    let pl0 := if idx.posting_list.any (fun e => e.1 == word) then idx.posting_list
      else idx.posting_list ++ [(word, [])]
    match (idx.doc_id.map (fun e => e.2)).getLast? with
    | none => .error .indexError
    | some _ =>
      match adtwLoop word idx.doc_id entries idx.words_in_doc pl0 with
      | .ok (wid, pl) => .ok { idx with words_in_doc := wid, posting_list := pl }
      | .error err => .error err

/-- methods.similarity_i of `probabilisticModel`: the per-term log-odds
contribution.  `n_containing_num` drops `n_i` from the numerator when
`n_i > N/2` (the `float` comparison `n_i <= N/2` is exact at these
magnitudes, so it is taken in `ℚ`), and `math.log10` is `Real.logb 10`
(the source raises ValueError when the argument is not positive; every
instance evaluated below has a positive argument). -/
noncomputable def similarity_i (idx : Index) (relevant_docs : List String) (cur : String) : ℝ :=
  let n_docs := get_n_docs idx
  let n_containing := get_n_docs_containing idx cur
  let n_relevant := relevant_docs.length
  let n_rel_containing := (get_intersection relevant_docs (get_doc_list idx cur)).length
  let n_containing_num : ℕ := if (n_containing : ℚ) ≤ (n_docs : ℚ) / 2 then n_containing else 0
  Real.logb 10
    ((((n_rel_containing : ℝ) + 0.5) *
        ((n_docs : ℝ) - (n_containing_num : ℝ) - (n_relevant : ℝ) + (n_rel_containing : ℝ) + 0.5)) /
      (((n_relevant : ℝ) - (n_rel_containing : ℝ) + 0.5) *
        ((n_containing : ℝ) - (n_rel_containing : ℝ) + 0.5)))

/-- methods.similarity of `probabilisticModel`: a `reduce` of
`similarity_i` over `get_intersection(query, doc)` — the query-term
occurrences (repeats kept) present in the document — starting from 0. -/
noncomputable def similarity (idx : Index) (query relevant_docs docWords : List String) : ℝ :=
  (get_intersection query docWords).foldl
    (fun acc cur => acc + similarity_i idx relevant_docs cur) 0

/-- methods.probabilisticModel: the dict mapping every indexed document
(enumerated by `get_all_docs`, i.e. in ascending name order) to its
similarity score. -/
noncomputable def probabilisticModel (query : List String) (idx : Index)
    (relevant_docs : List String) : List (String × ℝ) :=
  (get_all_docs idx).map (fun e => (e.1, similarity idx query relevant_docs e.2))

/-- The score claim C1 ascribes to the probabilistic ranker, written from
the specification's words: the sum over the distinct query terms present
in the document of the per-term log contribution (each distinct term
counted once).  Declared for comparison with `similarity`, the score the
source computes. -/
noncomputable def specDistinctScore (idx : Index) (query relevant_docs docWords : List String) :
    ℝ :=
  (((query.filter (fun t => docWords.contains t)).dedup).map
    (similarity_i idx relevant_docs)).sum

/-- The TDM loop of methods.vectorialModel computes
`idf = math.log2(N / n_i)` for every vocabulary word in order: the first
word with `n_i = 0` raises ZeroDivisionError, and `N = 0` with `n_i ≥ 1`
raises ValueError (`log2 0`).  Neither occurs for an index the constructor
completed. -/
def idfError (idx : Index) : Option PyError :=
  (get_all_words idx).findSome? (fun w =>
    if get_n_docs_containing idx w = 0 then some .zeroDivisionError
    else if get_n_docs idx = 0 then some .valueError
    else none)

/-- methods.vectorialModel.  After building the term-document matrix, the
column norms and the query vector, the ranking loop executes
`ranking[j] = np.dot(query_vector) / norm[j]` — `np.dot` applied to a
single argument — which raises TypeError on its first iteration; the
intermediate matrix and vector therefore never influence the result.  The
loop body runs iff the corpus is nonempty; an empty corpus returns the
empty sorted answer list. -/
def vectorialModel (query : List String) (idx : Index) :
    Except PyError (List (String × ℝ)) :=
  match idfError idx with
  | some e => .error e
  | none => if get_n_docs idx = 0 then .ok [] else .error .typeError

/-- query_expansion.implicit_feedback's term frequency read,
`index.get_frequency_in_doc(word, doc)`, for the in-bounds case (the
out-of-bounds case is the KeyError guard in `implicit_feedback`). -/
def localFreq (idx : Index) (w d : String) : Nat :=
  ((idx.words_in_doc.lookup d).getD []).count w

/-- The term–term co-occurrence matrix `C = M · Mᵗ` of
query_expansion.implicit_feedback, as its entry at a pair of words: the
sum over the ranking's documents of the product of the two words'
frequencies. -/
def corrC (idx : Index) (ranking : List String) (u v : String) : Nat :=
  (ranking.map (fun d => localFreq idx u d * localFreq idx v d)).sum

/-- The normalised correlation matrix entry
`c[u,v] / (c[u,u] + c[v,v] - c[u,v])` of query_expansion lines 45–47. -/
def normCorr (idx : Index) (ranking : List String) (u v : String) : ℚ :=
  (corrC idx ranking u v : ℚ) /
    ((corrC idx ranking u u : ℚ) + (corrC idx ranking v v : ℚ) - (corrC idx ranking u v : ℚ))

/-- query_expansion.get_expansions: for each query token found in the local
vocabulary (query order, repeats kept), list every other local-vocabulary
word with its normalised correlation, sort that row ascending by
correlation (Python's stable `sorted` with no `reverse` flag), keep the
first `N` words, and flatten-and-sort the per-token lists with
`extract_lists`. -/
def get_expansions (idx : Index) (ranking vocab query : List String) (N : Nat) : List String :=
  extract_lists ((query.filter (fun t => vocab.contains t)).map (fun token =>
    (sortByQ (fun w => normCorr idx ranking token w)
      (vocab.filter (fun w => !(w == token)))).take N))

/-- query_expansion.implicit_feedback.  The two error guards mirror the
source's execution order: the matrix-population loop (which only runs when
the local vocabulary is nonempty) raises KeyError at the first ranking doc
missing from the index, and the normalisation loop raises
ZeroDivisionError if any denominator is zero (provably impossible for
vocabulary words, but the source computes it for every pair).  On success
the expanded query is the sorted concatenation of the original query and
the expansions. -/
def implicit_feedback (idx : Index) (query ranking : List String) (N : Nat) :
    Except PyError (List String) :=
  let vocab := get_all_words_in_docs idx ranking
  if !vocab.isEmpty && ranking.any (fun d => (idx.words_in_doc.lookup d).isNone) then
    .error .keyError
  else if vocab.any (fun u => vocab.any (fun v =>
      (corrC idx ranking u u : ℚ) + (corrC idx ranking v v : ℚ) -
        (corrC idx ranking u v : ℚ) == 0)) then
    .error .zeroDivisionError
  else
    .ok ((query ++ get_expansions idx ranking vocab query N).insertionSort (· ≤ ·))

instance {ε α : Type} [DecidableEq ε] [DecidableEq α] : DecidableEq (Except ε α)
  | .ok a, .ok b =>
    if h : a = b then isTrue (by rw [h]) else isFalse (fun hc => h (Except.ok.inj hc))
  | .error a, .error b =>
    if h : a = b then isTrue (by rw [h]) else isFalse (fun hc => h (Except.error.inj hc))
  | .ok _, .error _ => isFalse (fun hc => Except.noConfusion hc)
  | .error _, .ok _ => isFalse (fun hc => Except.noConfusion hc)

example : exIdx2 = ⟨[("a", ["x"]), ("b", ["y"])], [("a", 0), ("b", 1)], ["x", "y"],
    [("x", [⟨"a", 1⟩]), ("y", [⟨"b", 1⟩])], false, false⟩ := by decide

example : get_posting_list exIdxSpec "the" = [⟨"d1", 1⟩, ⟨"d2", 2⟩] := by decide

example : get_posting_list exIdxSpec "sat" = [⟨"d1", 1⟩, ⟨"d2", 1⟩] := by decide

example : get_all_words exIdxSpec = ["cat", "dog", "mat", "on", "sat", "the"] := by decide

example : add_docs_to_word [] exIdx1 "y" [⟨.str "d2", .int 2⟩] = .error .keyError := rfl

example : implicit_feedback exIdx1 ["z"] ["d1"] 1 = .ok ["z"] := by
  with_unfolding_all decide

example : implicit_feedback exIdxQE ["cat"] ["d1"] 1 = .ok ["cat", "the"] := by
  with_unfolding_all decide

example : vectorialModel ["cat"] exIdxSpec = .error .typeError := rfl

example : normCorr exIdxQE ["d1"] "cat" "the" = 2 / 3 := by with_unfolding_all decide

example : normCorr exIdxQE ["d1"] "cat" "sat" = 1 := by with_unfolding_all decide

theorem foldl_add_eq_sum {α M : Type} [AddCommMonoid M] (f : α → M) :
    ∀ (l : List α) (x : M), l.foldl (fun acc cur => acc + f cur) x = x + (l.map f).sum
  | [], x => by simp
  | a :: l, x => by
    rw [List.foldl_cons, foldl_add_eq_sum f l (x + f a), List.map_cons, List.sum_cons,
      add_assoc]

/-- Claim C10 (confirmed): for every index and every integer id — including
the valid ordinal id of an indexed document — `get_doc_name` returns the
empty string, because its guard tests the type object `int` for membership
among the stored integer id values, which never succeeds. -/
theorem get_doc_name_always_empty (idx : Index) (id : Int) : get_doc_name idx id = "" := by
  unfold get_doc_name
  have h : ((idx.doc_id.map (fun e => e.2)).any
      (fun v => pyEq (.int (v : Int)) .typeInt)) = false := by
    simp only [List.any_eq_false, List.mem_map]
    rintro x ⟨e, _, rfl⟩
    simp [pyEq]
  rw [h]
  simp

/-- Claim C4 (code_bug): building from a mapping with a non-text value does
not signal an error — the constructor's `return None` completes the call
silently, keeping the documents processed before the offending one and
never assigning `all_words` or the flags.  Here `"a"` (sorted first) is
fully indexed before the build halts on `"b"`'s integer content. -/
theorem buildIndex_silently_truncates_on_nontext :
    buildIndex wsParse [("b", PyVal.int 5), ("a", PyVal.str "x")] false false =
      BuildResult.halted [("a", ["x"])] [("a", 0)] [("x", [⟨"a", 1⟩])] := by decide

/-- Claim C2 (code_bug): on the specification's own two-document corpus the
vector-space ranker returns no thresholded descending ranking: its ranking
loop executes `np.dot(query_vector)` — a one-argument call — and raises
TypeError for every nonempty corpus. -/
theorem vectorialModel_raises_typeError :
    vectorialModel ["cat"] exIdxSpec = Except.error PyError.typeError := rfl

/-- Claim C7 (code_bug): an entry for a new document does not materialise
that document's token multiset — the source writes the token list into
`posting_list[doc]` (its comment says `words_in_doc`) and then crashes on
`doc_id[doc].append`, a KeyError.  The other clauses do hold, witnessed by
the second conjunct: a wrong-typed entry is skipped without aborting, and
an entry for an existing document merges frequencies into the sorted
posting list. -/
theorem add_docs_to_word_crashes_on_new_doc :
    add_docs_to_word [] exIdx1 "y" [⟨PyVal.str "d2", PyVal.int 2⟩] =
        Except.error PyError.keyError ∧
      add_docs_to_word [] exIdx1 "x"
          [⟨PyVal.int 3, PyVal.str "bad"⟩, ⟨PyVal.str "d1", PyVal.int 2⟩] =
        Except.ok ⟨[("d1", ["x", "x", "x"])], [("d1", 0)], ["x"],
          [("x", [⟨"d1", 3⟩])], false, false⟩ := by decide

/-- Claim C8 (code_bug): the expander keeps the `N` local-vocabulary terms
with the LOWEST normalised correlation, not the highest: the row is sorted
ascending and truncated, although the source comment says "gets only the
topmost N words".  Concretely, for query term `cat` with one expansion
slot it selects `the` (correlation 2/3) over `sat` (correlation 1). -/
theorem implicit_feedback_selects_lowest_correlation :
    implicit_feedback exIdxQE ["cat"] ["d1"] 1 = Except.ok ["cat", "the"] ∧
      normCorr exIdxQE ["d1"] "cat" "the" < normCorr exIdxQE ["d1"] "cat" "sat" := by
  with_unfolding_all decide

/-- Claim C5 counterexample: the term-frequency-within-one-document
accessor does fail on an unknown key — `get_frequency_in_doc` subscripts
`words_in_doc[doc]` unguarded and raises KeyError for a document absent
from a built two-document index. -/
theorem get_frequency_in_doc_raises_on_unknown_doc :
    get_frequency_in_doc exIdx2 "x" "nosuch" = Except.error PyError.keyError := rfl

theorem contains_true_iff {l : List String} {a : String} : l.contains a = true ↔ a ∈ l := by
  simp [List.contains, List.elem_iff]

/-- Claim C1 (corrected): the probabilistic score of every indexed document
is the claimed sum of per-term log contributions over the distinct query
terms present in the document, but each term is weighted by its number of
occurrences in the query — `reduce` runs over `get_intersection(query,
doc)`, which keeps query repeats — where the claim counts each distinct
term once. -/
theorem probabilisticModel_score_weighted_by_multiplicity (idx : Index)
    (query relevant_docs : List String) :
    probabilisticModel query idx relevant_docs = (get_all_docs idx).map (fun e =>
      (e.1, ∑ t ∈ (query.filter (fun t => e.2.contains t)).toFinset,
        (query.count t : ℝ) * similarity_i idx relevant_docs t)) := by
  unfold probabilisticModel
  refine List.map_congr_left (fun e _ => ?_)
  have h : similarity idx query relevant_docs e.2 =
      ∑ t ∈ (query.filter (fun t => e.2.contains t)).toFinset,
        (query.count t : ℝ) * similarity_i idx relevant_docs t := by
    unfold similarity get_intersection
    rw [foldl_add_eq_sum, zero_add, Finset.sum_list_map_count]
    refine Finset.sum_congr rfl (fun t ht => ?_)
    rw [List.count_filter (List.of_mem_filter (List.mem_toFinset.mp ht)), nsmul_eq_mul]
  rw [h]

/-- Claim C1 counterexample: on a three-document index, the query
`["a", "a"]` (the term `a` repeated) gives document `d1` a score that is
twice the log contribution of `a`, while the claimed distinct-term sum
counts it once; the two differ because the contribution is
`log10(5/3) ≠ 0`. -/
theorem similarity_counts_duplicate_query_terms :
    similarity exIdx3 ["a", "a"] [] (get_words_in_doc exIdx3 "d1") ≠
      specDistinctScore exIdx3 ["a", "a"] [] (get_words_in_doc exIdx3 "d1") := by
  have hws : get_words_in_doc exIdx3 "d1" = ["a"] := by decide
  have hpos : 0 < similarity_i exIdx3 [] "a" := by
    have h1 : get_n_docs exIdx3 = 3 := by decide
    have h2 : get_n_docs_containing exIdx3 "a" = 1 := by decide
    have h3 : get_doc_list exIdx3 "a" = ["d1"] := by decide
    simp only [similarity_i, h1, h2, h3, get_intersection, List.filter_nil,
      List.length_nil]
    rw [if_pos (by norm_num)]
    apply Real.logb_pos (by norm_num)
    norm_num
  rw [hws]
  have hfil : (["a", "a"].filter (fun e => (["a"] : List String).contains e)) =
      ["a", "a"] := by decide
  unfold similarity specDistinctScore get_intersection
  rw [hfil]
  have hded : (["a", "a"] : List String).dedup = ["a"] := by decide
  rw [hded]
  simp only [List.foldl_cons, List.foldl_nil, List.map_cons, List.map_nil, List.sum_cons,
    List.sum_nil, zero_add, add_zero]
  intro hcontra
  linarith [hpos]

theorem lookup_isSome_of_mem_keys {β : Type} {l : List (String × β)} {k : String}
    (h : k ∈ l.map Prod.fst) : (l.lookup k).isSome := by
  induction l with
  | nil => simp at h
  | cons e rest ih =>
    rw [List.map_cons, List.mem_cons] at h
    by_cases hk : k = e.1
    · subst hk
      simp [List.lookup]
    · rcases h with h | h
      · exact absurd h hk
      · simpa [List.lookup, beq_false_of_ne hk] using ih h

/-- Claim C5 (corrected): every read accessor except two returns an
empty/zero sentinel for unknown keys without failing; the exceptions
forced by the code are `get_doc_id`, whose sentinel is `-1` (neither empty
nor zero), and `get_frequency_in_doc`, which raises KeyError for an
unknown document (it only returns `0` for an unknown word in a known
document). -/
theorem read_accessors_sentinel_behaviour (idx : Index) (w d : String) (docs : List String)
    (id : Int) (hw : idx.posting_list.lookup w = none)
    (hd : idx.words_in_doc.lookup d = none) (hdid : idx.doc_id.lookup d = none)
    (hdocs : ∀ x ∈ docs, x ∉ idx.words_in_doc.map Prod.fst) :
    get_posting_list idx w = [] ∧ get_doc_list idx w = [] ∧
      get_words_in_doc idx d = [] ∧ get_n_docs_containing idx w = 0 ∧
      get_n_different_words idx d = 0 ∧ get_total_freq idx w = 0 ∧
      get_all_words_in_docs idx docs = [] ∧ get_doc_id idx d = -1 ∧
      get_doc_name idx id = "" ∧
      get_frequency_in_doc idx w d = Except.error PyError.keyError := by
  have hpl : get_posting_list idx w = [] := by
    unfold get_posting_list getPL
    rw [hw]
    rfl
  refine ⟨hpl, ?_, ?_, ?_, ?_, ?_, ?_, ?_, ?_, ?_⟩
  · unfold get_doc_list
    rw [hpl]
    rfl
  · unfold get_words_in_doc
    rw [hd]
    rfl
  · unfold get_n_docs_containing
    rw [hpl]
    rfl
  · unfold get_n_different_words
    rw [hd]
    rfl
  · unfold get_total_freq
    rw [hpl]
    rfl
  · unfold get_all_words_in_docs
    have hfil : idx.words_in_doc.filter (fun e => docs.contains e.1) = [] := by
      rw [List.filter_eq_nil_iff]
      intro e he hc
      exact hdocs e.1 (contains_true_iff.mp hc) (List.mem_map_of_mem Prod.fst he)
    rw [hfil]
    rfl
  · unfold get_doc_id
    rw [hdid]
  · unfold get_doc_name
    have h : ((idx.doc_id.map (fun e => e.2)).any
        (fun v => pyEq (.int (v : Int)) .typeInt)) = false := by
      simp only [List.any_eq_false, List.mem_map]
      rintro x ⟨e, _, rfl⟩
      simp [pyEq]
    rw [h]
    simp
  · unfold get_frequency_in_doc
    rw [hd]

theorem read_accessors_sentinel_behaviour_witness :
    get_posting_list exIdx2 "zz" = [] ∧ get_doc_list exIdx2 "zz" = [] ∧
      get_words_in_doc exIdx2 "dd" = [] ∧ get_n_docs_containing exIdx2 "zz" = 0 ∧
      get_n_different_words exIdx2 "dd" = 0 ∧ get_total_freq exIdx2 "zz" = 0 ∧
      get_all_words_in_docs exIdx2 ["dd"] = [] ∧ get_doc_id exIdx2 "dd" = -1 ∧
      get_doc_name exIdx2 9 = "" ∧
      get_frequency_in_doc exIdx2 "zz" "dd" = Except.error PyError.keyError :=
  read_accessors_sentinel_behaviour exIdx2 "zz" "dd" ["dd"] 9 (by decide) (by decide)
    (by decide) (by decide)

/-- Claim C3 counterexample: the probabilistic ranker's output is not the
strictly-positive-score documents — on a two-document index with query
`["x"]` (occurring only in document `a`) the returned mapping still
contains document `b`, whose score is `0`, and it is keyed by name order,
not by descending score. -/
theorem probabilisticModel_keeps_zero_score_doc :
    (probabilisticModel ["x"] exIdx2 []).map Prod.fst = ["a", "b"] ∧
      similarity exIdx2 ["x"] [] (get_words_in_doc exIdx2 "b") = 0 :=
  ⟨rfl, rfl⟩

/-- Claim C9 (confirmed): whenever query expansion returns, the expanded
query contains every original query term with at least its original
multiplicity (a multiset superset — duplicates preserved, nothing
deduplicated), and when no original term occurs in the local vocabulary
the result is the original query unchanged apart from sorting. -/
theorem implicit_feedback_multiset_superset (idx : Index) (query ranking : List String)
    (N : Nat) (l : List String) (h : implicit_feedback idx query ranking N = Except.ok l) :
    (∀ t, query.count t ≤ l.count t) ∧
      ((∀ t ∈ query, t ∉ get_all_words_in_docs idx ranking) →
        l = query.insertionSort (· ≤ ·)) := by
  simp only [implicit_feedback] at h
  split at h
  · exact absurd h (by simp)
  · split at h
    · exact absurd h (by simp)
    · have hl : l = (query ++ get_expansions idx ranking
          (get_all_words_in_docs idx ranking) query N).insertionSort (· ≤ ·) := by
        injection h with h
        exact h.symm
      refine ⟨fun t => ?_, fun habs => ?_⟩
      · rw [hl, (List.perm_insertionSort (fun a b => a ≤ b) _).count_eq,
          List.count_append]
        exact Nat.le_add_right _ _
      · have hfil : query.filter
            (fun t => (get_all_words_in_docs idx ranking).contains t) = [] := by
          rw [List.filter_eq_nil_iff]
          intro t ht hc
          exact habs t ht (contains_true_iff.mp hc)
        rw [hl]
        unfold get_expansions
        rw [hfil]
        simp [extract_lists, List.insertionSort]

theorem implicit_feedback_multiset_superset_witness :
    (∀ t, (["z"] : List String).count t ≤ (["z"] : List String).count t) ∧
      ((∀ t ∈ (["z"] : List String), t ∉ get_all_words_in_docs exIdx1 ["d1"]) →
        (["z"] : List String) = (["z"] : List String).insertionSort (· ≤ ·)) :=
  implicit_feedback_multiset_superset exIdx1 ["z"] ["d1"] 1 ["z"]
    (by with_unfolding_all decide)

theorem lookup_eq_none_of_not_mem {β : Type} {l : List (String × β)} {k : String}
    (h : k ∉ l.map Prod.fst) : l.lookup k = none := by
  induction l with
  | nil => rfl
  | cons e rest ih =>
    rw [List.map_cons, List.mem_cons, not_or] at h
    simpa [List.lookup, beq_false_of_ne h.1] using ih h.2

theorem lookup_of_mem_nodup {β : Type} {l : List (String × β)} {k : String} {v : β}
    (hmem : (k, v) ∈ l) (hnd : (l.map Prod.fst).Nodup) : l.lookup k = some v := by
  induction l with
  | nil => simp at hmem
  | cons e rest ih =>
    rw [List.map_cons, List.nodup_cons] at hnd
    rcases List.mem_cons.mp hmem with h | h
    · rw [← h]
      simp [List.lookup]
    · have hk : k ≠ e.1 := by
        rintro rfl
        exact hnd.1 (List.mem_map.mpr ⟨(e.1, v), h, rfl⟩)
      simpa [List.lookup, beq_false_of_ne hk] using ih h hnd.2

theorem lookup_append_of_none {β : Type} {l1 : List (String × β)} (l2 : List (String × β))
    {k : String} (h : l1.lookup k = none) : (l1 ++ l2).lookup k = l2.lookup k := by
  induction l1 with
  | nil => rfl
  | cons e rest ih =>
    by_cases hk : k = e.1
    · subst hk
      simp [List.lookup] at h
    · rw [List.cons_append]
      simp only [List.lookup, beq_false_of_ne hk] at h ⊢
      exact ih h

theorem dictInsert_fresh {β : Type} {l : List (String × β)} {k : String} (v : β)
    (h : k ∉ l.map Prod.fst) : dictInsert l k v = l ++ [(k, v)] := by
  unfold dictInsert
  rw [if_neg]
  simp only [List.any_eq_true, not_exists, not_and, Bool.not_eq_true]
  intro e he
  rw [beq_eq_false_iff_ne]
  rintro rfl
  exact h (List.mem_map_of_mem Prod.fst he)

theorem lookup_map_update_self {β : Type} (f : β → β) (w : String) :
    ∀ (l : List (String × β)),
      (l.map (fun e => if e.1 == w then (e.1, f e.2) else e)).lookup w =
        (l.lookup w).map f
  | [] => rfl
  | e :: rest => by
    rw [List.map_cons]
    by_cases hw : e.1 = w
    · have hb : (e.1 == w) = true := beq_iff_eq.mpr hw
      have hb2 : (w == e.1) = true := beq_iff_eq.mpr hw.symm
      rw [if_pos hb]
      simp only [List.lookup, hb2]
      rfl
    · have hb : (e.1 == w) = false := beq_eq_false_iff_ne.mpr hw
      have hb2 : (w == e.1) = false := beq_eq_false_iff_ne.mpr (fun hc => hw hc.symm)
      rw [if_neg (by simp [hb])]
      simp only [List.lookup, hb2]
      exact lookup_map_update_self f w rest

theorem lookup_map_update_ne {β : Type} (f : β → β) {w w' : String} (h : w' ≠ w) :
    ∀ (l : List (String × β)),
      (l.map (fun e => if e.1 == w then (e.1, f e.2) else e)).lookup w' = l.lookup w'
  | [] => rfl
  | e :: rest => by
    rw [List.map_cons]
    by_cases hw : e.1 = w
    · have hb : (e.1 == w) = true := beq_iff_eq.mpr hw
      have hb2 : (w' == e.1) = false := beq_eq_false_iff_ne.mpr (fun hc => h (hc.trans hw))
      rw [if_pos hb]
      simp only [List.lookup, hb2]
      exact lookup_map_update_ne f h rest
    · have hb : (e.1 == w) = false := beq_eq_false_iff_ne.mpr hw
      rw [if_neg (by simp [hb])]
      simp only [List.lookup]
      cases hc : (w' == e.1)
      · exact lookup_map_update_ne f h rest
      · rfl

theorem lookup_append_some {β : Type} {l1 : List (String × β)} (l2 : List (String × β))
    {k : String} {v : β} (h : l1.lookup k = some v) : (l1 ++ l2).lookup k = some v := by
  induction l1 with
  | nil => simp [List.lookup] at h
  | cons e rest ih =>
    rw [List.cons_append]
    simp only [List.lookup] at h ⊢
    cases hb : (k == e.1)
    · rw [hb] at h
      exact ih h
    · rw [hb] at h
      exact h

theorem any_key_iff {β : Type} (l : List (String × β)) (k : String) :
    l.any (fun e => e.1 == k) = true ↔ k ∈ l.map Prod.fst := by
  simp only [List.any_eq_true, List.mem_map, beq_iff_eq]

theorem getPL_appendPosting_self (pl : List (String × List Posting)) (w : String)
    (p : Posting) : getPL (appendPosting pl w p) w = getPL pl w ++ [p] := by
  unfold appendPosting getPL
  by_cases hany : pl.any (fun e => e.1 == w) = true
  · rw [if_pos hany, lookup_map_update_self (fun l => l ++ [p]) w pl]
    rcases Option.isSome_iff_exists.mp (lookup_isSome_of_mem_keys ((any_key_iff pl w).mp hany))
      with ⟨l0, hl0⟩
    rw [hl0]
    rfl
  · rw [if_neg hany]
    have hnone : pl.lookup w = none := by
      apply lookup_eq_none_of_not_mem
      intro hmem
      exact hany ((any_key_iff pl w).mpr hmem)
    rw [lookup_append_of_none _ hnone, hnone]
    simp [List.lookup]

theorem getPL_appendPosting_ne (pl : List (String × List Posting)) {w w' : String}
    (p : Posting) (h : w' ≠ w) : getPL (appendPosting pl w p) w' = getPL pl w' := by
  unfold appendPosting getPL
  by_cases hany : pl.any (fun e => e.1 == w) = true
  · rw [if_pos hany, lookup_map_update_ne (fun l => l ++ [p]) h pl]
  · rw [if_neg hany]
    cases hc : pl.lookup w' with
    | some l0 => rw [lookup_append_some _ hc]
    | none =>
      rw [lookup_append_of_none _ hc]
      simp [List.lookup, beq_false_of_ne h]

theorem getPL_fold_not_mem (g : String → Posting) :
    ∀ (L : List String) (pl : List (String × List Posting)) (w : String), w ∉ L →
      getPL (L.foldl (fun pl u => appendPosting pl u (g u)) pl) w = getPL pl w
  | [], _, _, _ => rfl
  | u :: L, pl, w, h => by
    rw [List.mem_cons, not_or] at h
    rw [List.foldl_cons, getPL_fold_not_mem g L _ w h.2, getPL_appendPosting_ne _ _ h.1]

theorem getPL_fold_nodup (g : String → Posting) :
    ∀ (L : List String) (pl : List (String × List Posting)) (w : String), L.Nodup →
      getPL (L.foldl (fun pl u => appendPosting pl u (g u)) pl) w =
        getPL pl w ++ (if w ∈ L then [g w] else [])
  | [], pl, w, _ => by simp
  | u :: L, pl, w, hnd => by
    rw [List.nodup_cons] at hnd
    rw [List.foldl_cons]
    by_cases hw : w = u
    · subst hw
      rw [getPL_fold_not_mem g L _ w hnd.1, getPL_appendPosting_self]
      simp
    · rw [getPL_fold_nodup g L _ w hnd.2, getPL_appendPosting_ne _ _ hw]
      by_cases hmem : w ∈ L
      · rw [if_pos hmem, if_pos (List.mem_cons_of_mem u hmem)]
      · rw [if_neg hmem, if_neg (by simp [List.mem_cons, hw, hmem])]

theorem mem_setAdd {l : List String} {w x : String} : x ∈ setAdd l w ↔ x ∈ l ∨ x = w := by
  unfold setAdd
  by_cases h : l.contains w = true
  · rw [if_pos h]
    constructor
    · exact Or.inl
    · rintro (hx | rfl)
      · exact hx
      · exact contains_true_iff.mp h
  · rw [if_neg h]
    simp [List.mem_append]

theorem mem_fold_setAdd :
    ∀ (L : List String) (aw : List String) (x : String),
      x ∈ L.foldl setAdd aw ↔ x ∈ aw ∨ x ∈ L
  | [], aw, x => by simp
  | u :: L, aw, x => by
    rw [List.foldl_cons, mem_fold_setAdd L (setAdd aw u) x, mem_setAdd]
    simp [List.mem_cons]
    tauto

/-- The posting-list invariant tying an index state's `posting_list` to its
`words_in_doc`: the posting list of every word is exactly the sequence of
documents containing the word, in `words_in_doc` order, each with the
word's exact count in that document. -/
def PostingSpec (wid : List (String × List String)) (pl : List (String × List Posting)) :
    Prop :=
  ∀ w, getPL pl w = (wid.filter (fun e => e.2.contains w)).map
    (fun e => Posting.mk e.1 (e.2.count w : Int))

/-- The vocabulary invariant: `all_words` holds exactly the words occurring
in some document. -/
def VocabSpec (wid : List (String × List String)) (aw : List String) : Prop :=
  ∀ w, w ∈ aw ↔ ∃ e ∈ wid, w ∈ e.2

/-- The ordinal-id invariant: `doc_id` pairs the document names, in
`words_in_doc` order, with the consecutive ids `0, 1, …`. -/
def IdSpec (wid : List (String × List String)) (did : List (String × Nat)) : Prop :=
  did.map Prod.fst = wid.map Prod.fst ∧ did.map Prod.snd = List.range wid.length

theorem processDoc_step (s : BuildState) (d : String) (ws : List String)
    (hfresh : d ∉ s.words_in_doc.map Prod.fst)
    (hPL : PostingSpec s.words_in_doc s.posting_list)
    (hAW : VocabSpec s.words_in_doc s.all_words)
    (hID : IdSpec s.words_in_doc s.doc_id) :
    (processDoc s d ws s.words_in_doc.length).words_in_doc = s.words_in_doc ++ [(d, ws)] ∧
      PostingSpec (s.words_in_doc ++ [(d, ws)])
        (processDoc s d ws s.words_in_doc.length).posting_list ∧
      VocabSpec (s.words_in_doc ++ [(d, ws)])
        (processDoc s d ws s.words_in_doc.length).all_words ∧
      IdSpec (s.words_in_doc ++ [(d, ws)])
        (processDoc s d ws s.words_in_doc.length).doc_id := by
  have hfreshid : d ∉ s.doc_id.map Prod.fst := by
    rw [hID.1]
    exact hfresh
  have hwid : (processDoc s d ws s.words_in_doc.length).words_in_doc =
      s.words_in_doc ++ [(d, ws)] := dictInsert_fresh ws hfresh
  refine ⟨hwid, ?_, ?_, ?_, ?_⟩
  · intro w
    show getPL (ws.dedup.foldl
      (fun pl w => appendPosting pl w ⟨d, (ws.count w : Int)⟩) s.posting_list) w = _
    rw [getPL_fold_nodup (fun w => ⟨d, (ws.count w : Int)⟩) ws.dedup s.posting_list w
      (List.nodup_dedup ws), hPL w, List.filter_append, List.map_append]
    congr 1
    by_cases hmem : w ∈ ws
    · rw [if_pos (List.mem_dedup.mpr hmem)]
      have hc : (ws.contains w) = true := contains_true_iff.mpr hmem
      simp [List.filter_cons, hc, hmem]
    · rw [if_neg (fun hc => hmem (List.mem_dedup.mp hc))]
      have hc : (ws.contains w) = false := by
        rw [← Bool.not_eq_true]
        intro hcon
        exact hmem (contains_true_iff.mp hcon)
      simp [List.filter_cons, hc, hmem]
  · intro w
    show w ∈ ws.dedup.foldl setAdd s.all_words ↔ _
    rw [mem_fold_setAdd, hAW w, List.mem_dedup]
    constructor
    · rintro (⟨e, he, hw⟩ | hw)
      · exact ⟨e, List.mem_append_left _ he, hw⟩
      · exact ⟨(d, ws), List.mem_append_right _ (List.mem_singleton_self _), hw⟩
    · rintro ⟨e, he, hw⟩
      rcases List.mem_append.mp he with he | he
      · exact Or.inl ⟨e, he, hw⟩
      · rw [List.mem_singleton.mp he] at hw
        exact Or.inr hw
  · show (dictInsert s.doc_id d s.words_in_doc.length).map Prod.fst = _
    rw [dictInsert_fresh _ hfreshid, List.map_append, List.map_append, hID.1]
    rfl
  · show (dictInsert s.doc_id d s.words_in_doc.length).map Prod.snd = _
    rw [dictInsert_fresh _ hfreshid, List.map_append, hID.2, List.length_append]
    simp [List.range_succ]

theorem buildLoop_specs (parse : String → Bool → Bool → List String) (fs stw : Bool) :
    ∀ (xs : List (String × PyVal)) (s : BuildState) (idx : Index),
      buildLoop parse fs stw xs s.words_in_doc.length s = .complete idx →
      (s.words_in_doc.map Prod.fst ++ xs.map Prod.fst).Nodup →
      PostingSpec s.words_in_doc s.posting_list →
      VocabSpec s.words_in_doc s.all_words →
      IdSpec s.words_in_doc s.doc_id →
      PostingSpec idx.words_in_doc idx.posting_list ∧
        VocabSpec idx.words_in_doc idx.all_words ∧
        IdSpec idx.words_in_doc idx.doc_id ∧
        (idx.words_in_doc.map Prod.fst).Nodup
  | [], s, idx, h, hnd, hPL, hAW, hID => by
    have h2 : BuildResult.complete ⟨s.words_in_doc, s.doc_id,
        s.all_words.insertionSort (· ≤ ·), s.posting_list, fs, stw⟩ =
        BuildResult.complete idx := h
    injection h2 with h3
    subst h3
    refine ⟨hPL, ?_, hID, by simpa using hnd⟩
    intro w
    rw [List.mem_insertionSort]
    exact hAW w
  | (d, v) :: rest, s, idx, h, hnd, hPL, hAW, hID => by
    rw [List.map_cons] at hnd
    cases v with
    | str content =>
      have hfresh : d ∉ s.words_in_doc.map Prod.fst := by
        rw [List.nodup_append] at hnd
        exact fun hmem => hnd.2.2 hmem (List.mem_cons_self d _)
      obtain ⟨hwid, hPL2, hAW2, hID2a, hID2b⟩ :=
        processDoc_step s d (parse content fs stw) hfresh hPL hAW hID
      rw [← hwid] at hPL2 hAW2 hID2a hID2b
      have hlen : (processDoc s d (parse content fs stw)
          s.words_in_doc.length).words_in_doc.length = s.words_in_doc.length + 1 := by
        rw [hwid, List.length_append]
        rfl
      have h2 : buildLoop parse fs stw rest
          (processDoc s d (parse content fs stw) s.words_in_doc.length).words_in_doc.length
          (processDoc s d (parse content fs stw) s.words_in_doc.length) =
          .complete idx := by
        rw [hlen]
        exact h
      have hnd2 : ((processDoc s d (parse content fs stw)
          s.words_in_doc.length).words_in_doc.map Prod.fst ++ rest.map Prod.fst).Nodup := by
        rw [hwid, List.map_append, List.append_assoc]
        simpa using hnd
      exact buildLoop_specs parse fs stw rest _ idx h2 hnd2 hPL2 hAW2 ⟨hID2a, hID2b⟩
    | int n => exact absurd h (by simp [buildLoop])
    | typeInt => exact absurd h (by simp [buildLoop])

theorem buildIndex_specs (parse : String → Bool → Bool → List String)
    (db : List (String × PyVal)) (fs stw : Bool) (idx : Index)
    (hb : buildIndex parse db fs stw = .complete idx)
    (hnd : (db.map Prod.fst).Nodup) :
    PostingSpec idx.words_in_doc idx.posting_list ∧
      VocabSpec idx.words_in_doc idx.all_words ∧
      IdSpec idx.words_in_doc idx.doc_id ∧
      (idx.words_in_doc.map Prod.fst).Nodup := by
  have hnd2 : ((db.insertionSort (fun a b => a.1 ≤ b.1)).map Prod.fst).Nodup :=
    (((List.perm_insertionSort (fun (a b : String × PyVal) => a.1 ≤ b.1) db).map
      Prod.fst).nodup_iff).mpr hnd
  exact buildLoop_specs parse fs stw (db.insertionSort (fun a b => a.1 ≤ b.1))
    ⟨[], [], [], []⟩ idx hb (by simpa using hnd2) (fun w => rfl) (fun w => by simp)
    ⟨rfl, rfl⟩

theorem sum_filter_count (w : String) : ∀ (l : List (String × List String)),
    ((l.filter (fun e => e.2.contains w)).map (fun e => (e.2.count w : Int))).sum =
      (l.map (fun e => (e.2.count w : Int))).sum
  | [] => rfl
  | e :: l => by
    rw [List.map_cons, List.sum_cons, List.filter_cons]
    by_cases hc : (e.2.contains w) = true
    · rw [if_pos hc, List.map_cons, List.sum_cons, sum_filter_count w l]
    · rw [if_neg hc, sum_filter_count w l]
      have hz : e.2.count w = 0 := by
        rw [List.count_eq_zero]
        intro hmem
        exact hc (contains_true_iff.mpr hmem)
      rw [hz]
      simp

theorem map_fst_insertionSort_key {β : Type} (l : List (String × β)) :
    (l.insertionSort (fun a b => a.1 ≤ b.1)).map Prod.fst =
      (l.map Prod.fst).insertionSort (fun a b => a ≤ b) := by
  have hp : List.Perm ((l.insertionSort (fun a b => a.1 ≤ b.1)).map Prod.fst)
      ((l.map Prod.fst).insertionSort (fun a b => a ≤ b)) :=
    ((List.perm_insertionSort _ l).map Prod.fst).trans
      (List.perm_insertionSort _ (l.map Prod.fst)).symm
  have hs1 : List.Sorted (fun (a b : String) => a ≤ b)
      ((l.insertionSort (fun a b => a.1 ≤ b.1)).map Prod.fst) :=
    (List.pairwise_map).mpr
      (List.sorted_insertionSort (fun (a b : String × β) => a.1 ≤ b.1) l)
  have hs2 : List.Sorted (fun (a b : String) => a ≤ b)
      ((l.map Prod.fst).insertionSort (fun a b => a ≤ b)) :=
    List.sorted_insertionSort _ _
  exact List.eq_of_perm_of_sorted hp hs1 hs2

/-- Claim C6 (confirmed): for an index built to completion from a mapping
with all-text values, (a) every term with a nonempty posting list is in
the vocabulary, (b) a term's posting-list entry count equals the number of
distinct documents containing it, (c) every posting entry's frequency is
the exact count of the term in that document's token multiset — so the
posting-list frequency total equals the term's total count across all
documents — and (d) the ordinal ids are exactly `0, …, docCount − 1`
assigned to the distinct document names. -/
theorem buildIndex_invariants (parse : String → Bool → Bool → List String)
    (db : List (String × PyVal)) (fs stw : Bool) (idx : Index)
    (hb : buildIndex parse db fs stw = .complete idx)
    (hnd : (db.map Prod.fst).Nodup) :
    (∀ w, get_posting_list idx w ≠ [] → w ∈ get_all_words idx) ∧
      (∀ w, (get_posting_list idx w).length =
        ((get_all_docs idx).filter (fun e => e.2.contains w)).length) ∧
      (∀ w p, p ∈ get_posting_list idx w →
        p.freq = ((get_words_in_doc idx p.doc).count w : Int)) ∧
      (∀ w, get_total_freq idx w =
        ((get_all_docs idx).map (fun e => (e.2.count w : Int))).sum) ∧
      idx.doc_id.map Prod.snd = List.range (get_n_docs idx) ∧
      (idx.doc_id.map Prod.fst).Nodup := by
  obtain ⟨hPL, hAW, hID, hndk⟩ := buildIndex_specs parse db fs stw idx hb hnd
  have hget : ∀ w, get_posting_list idx w =
      (idx.words_in_doc.filter (fun e => e.2.contains w)).map
        (fun e => Posting.mk e.1 (e.2.count w : Int)) := fun w => hPL w
  refine ⟨?_, ?_, ?_, ?_, hID.2, ?_⟩
  · intro w hne
    rw [hget] at hne
    have hfil : idx.words_in_doc.filter (fun e => e.2.contains w) ≠ [] := by
      intro hcon
      rw [hcon] at hne
      exact hne rfl
    obtain ⟨e, he⟩ := List.exists_mem_of_ne_nil _ hfil
    have he2 := List.mem_filter.mp he
    exact (hAW w).mpr ⟨e, he2.1, contains_true_iff.mp he2.2⟩
  · intro w
    rw [hget, List.length_map]
    exact (((List.perm_insertionSort
      (fun (a b : String × List String) => a.1 ≤ b.1) idx.words_in_doc).filter
      (fun e => e.2.contains w)).length_eq).symm
  · intro w p hp
    rw [hget] at hp
    obtain ⟨e, hef, heq⟩ := List.mem_map.mp hp
    have he : e ∈ idx.words_in_doc := (List.mem_filter.mp hef).1
    have hlk : idx.words_in_doc.lookup e.1 = some e.2 :=
      lookup_of_mem_nodup (by simpa using he) hndk
    rw [← heq]
    show (e.2.count w : Int) = ((get_words_in_doc idx e.1).count w : Int)
    unfold get_words_in_doc
    rw [hlk]
    rfl
  · intro w
    unfold get_total_freq
    rw [hget, foldl_add_eq_sum Posting.freq, zero_add, List.map_map]
    have hstep : ((idx.words_in_doc.filter (fun e => e.2.contains w)).map
        (Posting.freq ∘ fun e => Posting.mk e.1 (e.2.count w : Int))).sum =
        ((idx.words_in_doc.filter (fun e => e.2.contains w)).map
          (fun e => (e.2.count w : Int))).sum := rfl
    rw [hstep, sum_filter_count]
    exact (((List.perm_insertionSort
      (fun (a b : String × List String) => a.1 ≤ b.1) idx.words_in_doc).map
      (fun e => (e.2.count w : Int))).sum_eq).symm
  · rw [hID.1]
    exact hndk

theorem buildIndex_invariants_witness :
    (∀ w, get_posting_list exIdx2 w ≠ [] → w ∈ get_all_words exIdx2) ∧
      (∀ w, (get_posting_list exIdx2 w).length =
        ((get_all_docs exIdx2).filter (fun e => e.2.contains w)).length) ∧
      (∀ w p, p ∈ get_posting_list exIdx2 w →
        p.freq = ((get_words_in_doc exIdx2 p.doc).count w : Int)) ∧
      (∀ w, get_total_freq exIdx2 w =
        ((get_all_docs exIdx2).map (fun e => (e.2.count w : Int))).sum) ∧
      exIdx2.doc_id.map Prod.snd = List.range (get_n_docs exIdx2) ∧
      (exIdx2.doc_id.map Prod.fst).Nodup :=
  buildIndex_invariants wsParse [("a", .str "x"), ("b", .str "y")] false false exIdx2
    rfl (by decide)

/-- Claim C3 (corrected): the probabilistic ranker does not filter by
positive score and does not sort by score — it returns the full score
mapping over every indexed document, keyed in ascending document-name
order (hence duplicate-free, with length exactly the corpus size). -/
theorem probabilisticModel_returns_all_docs_by_name
    (parse : String → Bool → Bool → List String) (db : List (String × PyVal))
    (fs stw : Bool) (idx : Index) (query relevant_docs : List String)
    (hb : buildIndex parse db fs stw = .complete idx)
    (hnd : (db.map Prod.fst).Nodup) :
    (probabilisticModel query idx relevant_docs).map Prod.fst = get_all_docs_names idx ∧
      ((probabilisticModel query idx relevant_docs).map Prod.fst).Nodup ∧
      (probabilisticModel query idx relevant_docs).length = get_n_docs idx := by
  obtain ⟨_, _, _, hndk⟩ := buildIndex_specs parse db fs stw idx hb hnd
  have hmapfst : (probabilisticModel query idx relevant_docs).map Prod.fst =
      (get_all_docs idx).map Prod.fst := by
    unfold probabilisticModel
    rw [List.map_map]
    rfl
  have hkey : (get_all_docs idx).map Prod.fst = get_all_docs_names idx :=
    map_fst_insertionSort_key idx.words_in_doc
  refine ⟨hmapfst.trans hkey, ?_, ?_⟩
  · rw [hmapfst]
    exact (((List.perm_insertionSort
      (fun (a b : String × List String) => a.1 ≤ b.1) idx.words_in_doc).map
      Prod.fst).nodup_iff).mpr hndk
  · unfold probabilisticModel
    rw [List.length_map]
    exact List.length_insertionSort _ _

theorem probabilisticModel_returns_all_docs_by_name_witness :
    (probabilisticModel ["x"] exIdx2 []).map Prod.fst = get_all_docs_names exIdx2 ∧
      ((probabilisticModel ["x"] exIdx2 []).map Prod.fst).Nodup ∧
      (probabilisticModel ["x"] exIdx2 []).length = get_n_docs exIdx2 :=
  probabilisticModel_returns_all_docs_by_name wsParse [("a", .str "x"), ("b", .str "y")]
    false false exIdx2 ["x"] [] rfl (by decide)
